import Mathlib

/-!
Verification of `apexdir.py`, a reader/extractor for Apex (Apple II) disk
images.  The Python source is shallowly embedded below: byte strings become
`List Nat` (Python 2 `str` is a byte string), the disk image becomes a length
plus a byte function, exceptions and `sys.exit` become `Except`, and the
imperative loops become structural recursion.  All definitions follow the
source file `apexdir.py`; comments cite the corresponding source lines.
-/

namespace Apexdir

/-- Loop body of `invert_table` (apexdir.py lines 13-21).  `inv` is the
`inverse_table` accumulator (entries `none` model Python's `None`), `i` is the
loop index.  The range check `table[i] < 0 or table[i] >= len(table)` becomes
`x ≥ inv.length` (the `< 0` half is vacuous over `Nat`, and `inv.length` is
invariantly the length of the original table). -/
def invertAux : List Nat → Nat → List (Option Nat) → Except String (List (Option Nat))
  | [], _, inv => .ok inv
  | x :: xs, i, inv =>
    if inv.length ≤ x then .error "Table element(s) out of range"
    else if (inv.getD x none).isSome then .error "Table elements not unique"
    else invertAux xs (i + 1) (inv.set x (some i))

/-- `invert_table` (apexdir.py lines 13-21).  On success Python returns a list
that contains no `None` (the input was a permutation, so every slot was
filled); the final `Option.getD 0` strips the `Option` wrapper accordingly. -/
def invert_table (table : List Nat) : Except String (List Nat) :=
  (invertAux table 0 (List.replicate table.length none)).map
    (List.map (fun o => o.getD 0))

/-- `compose_table` (apexdir.py lines 23-26): length check, then
`[table2[table1[i]] for i in range(len(table1))]`. -/
def compose_table (table1 table2 : List Nat) : Except String (List Nat) :=
  if table1.length ≠ table2.length then .error "Tables not same length"
  else .ok (table1.map fun x => table2.getD x 0)

/-- DOS 3.3 interleave table (apexdir.py lines 31-32). -/
def dos33_to_phys : List Nat :=
  [0x00, 0x0d, 0x0b, 0x09, 0x07, 0x05, 0x03, 0x01,
   0x0e, 0x0c, 0x0a, 0x08, 0x06, 0x04, 0x02, 0x0f]

/-- `phys_to_dos33 = invert_table(dos33_to_phys)` (apexdir.py line 34).  The
Python call raises on bad input; the `.error` fallback is never taken. -/
def phys_to_dos33 : List Nat :=
  match invert_table dos33_to_phys with
  | .ok t => t
  | .error _ => []

/-- Apple Pascal interleave table (apexdir.py lines 37-38). -/
def pascal_to_phys : List Nat :=
  [0x00, 0x02, 0x04, 0x06, 0x08, 0x0a, 0x0c, 0x0e,
   0x01, 0x03, 0x05, 0x07, 0x09, 0x0b, 0x0d, 0x0f]

/-- `phys_to_pascal = invert_table(pascal_to_phys)` (apexdir.py line 40). -/
def phys_to_pascal : List Nat :=
  match invert_table pascal_to_phys with
  | .ok t => t
  | .error _ => []

/-- CP/M interleave table (apexdir.py lines 43-44). -/
def cpm_to_phys : List Nat :=
  [0x00, 0x03, 0x06, 0x09, 0x0c, 0x0f, 0x02, 0x05,
   0x08, 0x0b, 0x0e, 0x01, 0x04, 0x07, 0x0a, 0x0d]

/-- `phys_to_cpm = invert_table(cpm_to_phys)` (apexdir.py line 46). -/
def phys_to_cpm : List Nat :=
  match invert_table cpm_to_phys with
  | .ok t => t
  | .error _ => []

/-- Disk geometry constants (apexdir.py lines 58-61). -/
def block_size : Nat := 256

def block_count : Nat := 560

def blocks_per_track : Nat := 16

def files_per_dir : Nat := 48

/-- `pascal_to_dos33 = compose_table(pascal_to_phys, phys_to_dos33)`
(apexdir.py line 68).  The `.error` fallback is never taken. -/
def pascal_to_dos33 : List Nat :=
  match compose_table pascal_to_phys phys_to_dos33 with
  | .ok t => t
  | .error _ => []

/-- `block_to_offset` (apexdir.py lines 70-72). -/
def block_to_offset (b : Nat) : Nat :=
  ((b / blocks_per_track) * blocks_per_track
    + pascal_to_dos33.getD (b % blocks_per_track) 0) * block_size

/-- The disk image: a Python 2 byte string, embedded as its length together
with the byte at each offset (offsets ≥ `len` are irrelevant once the size
check has passed). -/
structure Image where
  len : Nat
  byte : Nat → Nat

/-- `blocks_str[b] = image[block_to_offset(b) : block_to_offset(b)+block_size]`
(apexdir.py line 74). -/
def blocks_str (img : Image) (b : Nat) : List Nat :=
  (List.range block_size).map fun i => img.byte (block_to_offset b + i)

/-- `raw_dir = blocks[9] + blocks[10] + blocks[11] + blocks[12]`
(apexdir.py line 77). -/
def raw_dir (img : Image) : List Nat :=
  blocks_str img 9 ++ blocks_str img 10 ++ blocks_str img 11 ++ blocks_str img 12

/-- `decode_date` (apexdir.py lines 79-83) as the decoded
`(year, month, day)` triple; the source renders it as
a zero-padded string, year then month then day. -/
def decode_date (v : Nat) : Nat × Nat × Nat :=
  (1976 + v / 512, (v / 32) % 16, v % 32)

/-- ASCII lowercasing of one byte, the per-byte action of Python 2
`str.lower()`. -/
def toLowerByte (c : Nat) : Nat :=
  if 65 ≤ c ∧ c ≤ 90 then c + 32 else c

/-- ASCII uppercasing of one byte (used only to state case-insensitivity). -/
def toUpperByte (c : Nat) : Nat :=
  if 97 ≤ c ∧ c ≤ 122 then c - 32 else c

/-- `munge_filename` (apexdir.py lines 85-88): lowercase, then remove all
spaces (byte 32). -/
def munge_filename (f : List Nat) : List Nat :=
  (f.map toLowerByte).filter fun c => c ≠ 32

/-- One decoded directory entry, the tuple
`(name, first_block, last_block - first_block + 1, decode_date(fdate))`
appended at apexdir.py line 99.  `size` is an `Int` because Python computes
`last_block - first_block + 1` over unbounded integers. -/
structure DirEntry where
  name : List Nat
  first_block : Nat
  size : Int
  date : Nat × Nat × Nat
deriving DecidableEq

/-- Status byte of directory slot `i`: `raw_dir[528+i]` (apexdir.py line 92). -/
def slotStatus (raw : List Nat) (i : Nat) : Nat :=
  raw.getD (528 + i) 0

/-- Decoding of directory slot `i` (apexdir.py lines 95-99): 11 name bytes at
offset `i*11` rendered as 8 base characters, a dot, and 3 extension
characters; little-endian 16-bit `first_block`, `last_block` and `fdate`. -/
def slotEntry (raw : List Nat) (i : Nat) : DirEntry :=
  let name := (raw.drop (i * 11)).take 8 ++ [46] ++ (raw.drop (i * 11 + 8)).take 3
  let first_block := raw.getD (576 + 2 * i) 0 + 256 * raw.getD (576 + 2 * i + 1) 0
  let last_block := raw.getD (672 + 2 * i) 0 + 256 * raw.getD (672 + 2 * i + 1) 0
  let fdate := raw.getD (920 + 2 * i) 0 + 256 * raw.getD (920 + 2 * i + 1) 0
  ⟨name, first_block, (last_block : Int) - (first_block : Int) + 1, decode_date fdate⟩

/-- The directory-decoding loop (apexdir.py lines 90-99): slots `0..47` in
order, skipping slots whose status byte is zero.  The `if False:` sort at
lines 101-102 is dead code and is not part of the embedding. -/
def decode_dir (raw : List Nat) : List DirEntry :=
  (List.range files_per_dir).filterMap fun i =>
    if slotStatus raw i = 0 then none else some (slotEntry raw i)

/-- `bin_extensions` (apexdir.py line 111): the byte strings
".bin", ".i2l", ".obj", ".sav", ".sys". -/
def bin_extensions : List (List Nat) :=
  [[46, 98, 105, 110], [46, 105, 50, 108], [46, 111, 98, 106],
   [46, 115, 97, 118], [46, 115, 121, 115]]

/-- `name.endswith(bin_extensions)` on the munged name
(apexdir.py line 119); the entry is BINARY exactly when this is `true`. -/
def isBinaryName (name : List Nat) : Bool :=
  bin_extensions.any fun suf => suf.isSuffixOf (munge_filename name)

/-- The per-file extraction loop (apexdir.py lines 122-129): `count` blocks
starting at block `b`.  For a text file, the first block containing byte
0x1A (= 26) is truncated at that byte and the loop `break`s; otherwise the
whole block is written and the loop continues. -/
def extract_blocks (blocks : Nat → List Nat) (textFile : Bool) :
    Nat → Nat → List Nat
  | _, 0 => []
  | b, count + 1 =>
    let bs := blocks b
    if textFile then
      match bs.findIdx? (fun c => c == 26) with
      | some cz => bs.take cz
      | none => bs ++ extract_blocks blocks textFile (b + 1) count
    else bs ++ extract_blocks blocks textFile (b + 1) count

/-- Extraction of one directory entry (apexdir.py lines 115-129): munge the
name, classify by extension, then run the block loop over
`range(first_block, first_block + size)` (empty when `size ≤ 0`, hence
`Int.toNat`). -/
def extract_file (img : Image) (e : DirEntry) : List Nat :=
  extract_blocks (blocks_str img) (!(isBinaryName e.name)) e.first_block e.size.toNat

/-- The whole program (apexdir.py lines 51-129) as a function of the argv
length and the image: exit status 1 on wrong argument count (line 53), exit
status 2 on wrong image size (line 65), otherwise the decoded directory and
the extracted byte strings, one per entry. -/
def apexdir_run (argv_len : Nat) (img : Image) :
    Except Nat (List DirEntry × List (List Nat)) :=
  if argv_len ≠ 2 then .error 1
  else if img.len ≠ block_size * block_count then .error 2
  else
    let dir := decode_dir (raw_dir img)
    .ok (dir, dir.map (extract_file img))

end Apexdir

namespace Apexdir

/-! ### Theorems -/

/-- C6: `decode_date` decodes a packed 16-bit value `v` as
day = `v mod 32`, month = `(v / 32) mod 16`, year = `1976 + v / 512`, with no
bounds validation on the fields (packed value 511 yields month 15 and day 31
unchecked); packed value 0 decodes to 1976.00.00 and packed value 549 decodes
to 1977.01.05. -/
theorem decode_date_spec :
    (∀ v, decode_date v = (1976 + v / 512, (v / 32) % 16, v % 32)) ∧
    decode_date 0 = (1976, 0, 0) ∧
    decode_date 549 = (1977, 1, 5) ∧
    decode_date 511 = (1976, 15, 31) :=
  ⟨fun _ => rfl, rfl, rfl, rfl⟩

/-- C9: the composed interleave table `pascal_to_dos33`, built by
`compose_table pascal_to_phys phys_to_dos33` from the literal constants, is a
valid permutation of `[0, 16)` (16 entries, pairwise distinct, all below 16),
even though `compose_table` itself checks only that its inputs have equal
length and accepts non-bijective tables (last conjunct). -/
theorem pascal_to_dos33_perm :
    compose_table pascal_to_phys phys_to_dos33 = .ok pascal_to_dos33 ∧
    pascal_to_dos33 = [0, 14, 13, 12, 11, 10, 9, 8, 7, 6, 5, 4, 3, 2, 1, 15] ∧
    pascal_to_dos33.length = 16 ∧
    pascal_to_dos33.Nodup ∧
    (∀ x ∈ pascal_to_dos33, x < 16) ∧
    compose_table [0, 0] [3, 4] = .ok [3, 3] :=
  ⟨rfl, by decide, by decide, by decide, by decide, rfl⟩

/-- C8: an image whose length is not `block_size * block_count = 143360` is
rejected with exit status 2, before any block addressing or directory
decoding (the result does not depend on the image's bytes); status 2 is
nonzero and distinct from the usage-error status 1 (last conjunct: a wrong
argv count exits with status 1). -/
theorem wrong_size_rejected (img : Image)
    (h : img.len ≠ block_size * block_count) :
    apexdir_run 2 img = .error 2 ∧ (2 : Nat) ≠ 0 ∧ (2 : Nat) ≠ 1 ∧
    apexdir_run 1 img = .error 1 := by
  refine ⟨?_, by decide, by decide, rfl⟩
  simp [apexdir_run, h]

/-- Witness for C8 at the concrete all-zero image of length 143359. -/
theorem wrong_size_rejected_witness :
    (Image.mk 143359 fun _ => 0).len ≠ block_size * block_count ∧
    (apexdir_run 2 ⟨143359, fun _ => 0⟩ = .error 2 ∧ (2 : Nat) ≠ 0 ∧
      (2 : Nat) ≠ 1 ∧ apexdir_run 1 ⟨143359, fun _ => 0⟩ = .error 1) :=
  ⟨by decide, wrong_size_rejected ⟨143359, fun _ => 0⟩ (by decide)⟩

/-- C10: for a TEXT-classified file whose first block starts with byte 0x1A,
extraction writes nothing at all: the output is empty for every block count
`n + 1` and every assignment of the remaining blocks, so no subsequent block
is read or written. -/
theorem text_leading_ctrlz (blocks : Nat → List Nat) (first n : Nat)
    (rest : List Nat) (h : blocks first = 26 :: rest) :
    extract_blocks blocks true first (n + 1) = [] := by
  simp [extract_blocks, h, List.findIdx?_cons]

/-- Witness for C10 at a concrete block assignment. -/
theorem text_leading_ctrlz_witness :
    ((fun _ : Nat => [26, 7]) 3 = 26 :: [7]) ∧
    extract_blocks (fun _ => [26, 7]) true 3 (0 + 1) = [] :=
  ⟨rfl, text_leading_ctrlz (fun _ => [26, 7]) 3 0 [7] rfl⟩

/-- C5: for every directory slot `i` of the 1024-byte directory buffer, the
decoded filename is the 8-byte base at offset `i*11`, a dot separator, and
the 3-byte extension at offset `i*11 + 8` (the 8.3 convention), 12 bytes in
all. -/
theorem slot_name_spec (raw : List Nat) (i : Nat) (hraw : raw.length = 1024)
    (hi : i < 48) :
    (slotEntry raw i).name =
      (raw.drop (i * 11)).take 8 ++ [46] ++ (raw.drop (i * 11 + 8)).take 3 ∧
    ((raw.drop (i * 11)).take 8).length = 8 ∧
    ((raw.drop (i * 11 + 8)).take 3).length = 3 ∧
    (slotEntry raw i).name.length = 12 := by
  have h8 : ((raw.drop (i * 11)).take 8).length = 8 := by
    simp [List.length_take, List.length_drop, hraw]; omega
  have h3 : ((raw.drop (i * 11 + 8)).take 3).length = 3 := by
    simp [List.length_take, List.length_drop, hraw]; omega
  refine ⟨rfl, h8, h3, ?_⟩
  show ((raw.drop (i * 11)).take 8 ++ [46] ++ (raw.drop (i * 11 + 8)).take 3).length = 12
  simp [h8, h3]

/-- Witness for C5 at the all-zero directory buffer and slot 0. -/
theorem slot_name_spec_witness :
    (List.replicate 1024 0).length = 1024 ∧ 0 < 48 ∧
    ((slotEntry (List.replicate 1024 0) 0).name =
        ((List.replicate 1024 (0 : Nat)).drop (0 * 11)).take 8 ++ [46] ++
          ((List.replicate 1024 (0 : Nat)).drop (0 * 11 + 8)).take 3 ∧
      (((List.replicate 1024 (0 : Nat)).drop (0 * 11)).take 8).length = 8 ∧
      (((List.replicate 1024 (0 : Nat)).drop (0 * 11 + 8)).take 3).length = 3 ∧
      (slotEntry (List.replicate 1024 0) 0).name.length = 12) :=
  ⟨List.length_replicate 1024 0, by decide,
    slot_name_spec (List.replicate 1024 0) 0 (List.length_replicate 1024 0) (by decide)⟩

/-- C1: `block_to_offset` realises the spec formula
`((b / 16) * 16 + pascal_to_dos33[b mod 16]) * 256`, is injective on
`[0, 560)`, and every offset is a multiple of 256 with `offset + 256 ≤
143360`, so each 256-byte block slice stays inside the image. -/
theorem block_to_offset_spec (a b : Nat) (ha : a < 560) (hb : b < 560) :
    block_to_offset a =
      ((a / 16) * 16 + pascal_to_dos33.getD (a % 16) 0) * 256 ∧
    (block_to_offset a = block_to_offset b → a = b) ∧
    block_to_offset a % 256 = 0 ∧
    block_to_offset a + 256 ≤ 143360 := by
  have hTb : ∀ x < 16, pascal_to_dos33.getD x 0 < 16 := by decide
  have hTinj : ∀ x < 16, ∀ y < 16,
      pascal_to_dos33.getD x 0 = pascal_to_dos33.getD y 0 → x = y := by decide
  have ha16 : a % 16 < 16 := Nat.mod_lt _ (by norm_num)
  have hb16 : b % 16 < 16 := Nat.mod_lt _ (by norm_num)
  have hu := hTb _ ha16
  have hv := hTb _ hb16
  refine ⟨rfl, ?_, ?_, ?_⟩
  · intro h
    simp only [block_to_offset, blocks_per_track, block_size] at h
    have h2 : a % 16 = b % 16 := by
      refine hTinj _ ha16 _ hb16 ?_
      omega
    rw [h2] at h
    omega
  · simp only [block_to_offset, block_size, Nat.mul_mod_left]
  · simp only [block_to_offset, blocks_per_track, block_size]
    omega

/-- Witness for C1 at blocks 1 and 2. -/
theorem block_to_offset_spec_witness :
    block_to_offset 1 =
      ((1 / 16) * 16 + pascal_to_dos33.getD (1 % 16) 0) * 256 ∧
    (block_to_offset 1 = block_to_offset 2 → 1 = 2) ∧
    block_to_offset 1 % 256 = 0 ∧
    block_to_offset 1 + 256 ≤ 143360 :=
  block_to_offset_spec 1 2 (by decide) (by decide)

end Apexdir

namespace Apexdir

/-- Name bytes of the synthetic "HELLO   .TXT" directory: physical block 6,
which `block_to_offset` maps logical block 9 to (first 256 bytes of the
directory buffer). -/
def dirNameBlock : Nat → Nat
  | 0 => 72 | 1 => 69 | 2 => 76 | 3 => 76 | 4 => 79
  | 5 => 32 | 6 => 32 | 7 => 32
  | 8 => 84 | 9 => 88 | 10 => 84
  | _ => 0

/-- Directory bytes 512-767 (physical block 4, logical block 11) of the
synthetic image: status 1 for slot 0 at buffer offset 528, and
first_block = last_block = 17 at buffer offsets 576 and 672. -/
def dirMetaBlock : Nat → Nat
  | 16 => 1
  | 64 => 17 | 65 => 0
  | 160 => 17 | 161 => 0
  | _ => 0

/-- Content of logical block 17 of the synthetic image:
"hi", then the 0x1A end-of-file marker, then zero padding. -/
def helloFileBlock : Nat → Nat
  | 0 => 104 | 1 => 105 | 2 => 26
  | _ => 0

/-- A synthetic 143360-byte image with a single directory entry
`HELLO   .TXT` (status 1, first_block = last_block = 17, date 0) whose block
17 contains "hi", 0x1A, and zero padding.  Logical blocks 9, 11 and 17 sit at
physical blocks 6, 4 and 30 under `block_to_offset`. -/
def helloImage : Image where
  len := 143360
  byte := fun off =>
    match off / 256 with
    | 6 => dirNameBlock (off % 256)
    | 4 => dirMetaBlock (off % 256)
    | 30 => helloFileBlock (off % 256)
    | _ => 0

/-- C2: text extraction scans each block for the first 0x1A byte; a block
with the marker at index `cz` contributes exactly its first `cz` bytes and
ends the file (whatever the remaining block count and block contents), a
block without the marker is written in full and processing continues.
End to end (last conjunct), running the program on `helloImage` decodes one
entry `HELLO   .TXT` (first_block 17, size 1, date 1976.00.00) and extracts
exactly the two bytes "hi". -/
theorem text_extract_spec :
    (∀ (blocks : Nat → List Nat) (b n cz : Nat),
      (blocks b).findIdx? (fun c => c == 26) = some cz →
      extract_blocks blocks true b (n + 1) = (blocks b).take cz) ∧
    (∀ (blocks : Nat → List Nat) (b n : Nat),
      (blocks b).findIdx? (fun c => c == 26) = none →
      extract_blocks blocks true b (n + 1) =
        blocks b ++ extract_blocks blocks true (b + 1) n) ∧
    apexdir_run 2 helloImage =
      .ok ([⟨[72, 69, 76, 76, 79, 32, 32, 32, 46, 84, 88, 84], 17, 1,
              (1976, 0, 0)⟩],
           [[104, 105]]) := by
  refine ⟨?_, ?_, ?_⟩
  · intro blocks b n cz h
    simp [extract_blocks, h]
  · intro blocks b n h
    simp [extract_blocks, h]
  · set_option maxRecDepth 10000 in exact rfl

/-- Witness for C2, instantiating the truncation conjunct at a concrete
block assignment with the marker at index 2. -/
theorem text_extract_spec_witness :
    ([104, 105, 26, 0].findIdx? (fun c => c == 26) = some 2) ∧
    extract_blocks (fun _ => [104, 105, 26, 0]) true 17 (0 + 1) =
      [104, 105, 26, 0].take 2 :=
  ⟨by decide, text_extract_spec.1 (fun _ => [104, 105, 26, 0]) 17 0 2 (by decide)⟩

end Apexdir

namespace Apexdir

/-- Uppercasing then lowercasing a byte is the same as lowercasing it. -/
theorem toLowerByte_toUpperByte (c : Nat) :
    toLowerByte (toUpperByte c) = toLowerByte c := by
  unfold toLowerByte toUpperByte
  split_ifs <;> omega

/-- `munge_filename` is insensitive to ASCII case of its input. -/
theorem munge_filename_toUpperByte (name : List Nat) :
    munge_filename (name.map toUpperByte) = munge_filename name := by
  unfold munge_filename
  rw [List.map_map]
  have h : toLowerByte ∘ toUpperByte = toLowerByte := funext toLowerByte_toUpperByte
  rw [h]

/-- First block of the synthetic binary file: 256 copies of byte 7. -/
def binBlock1 : List Nat := List.replicate 256 7

/-- Second block of the synthetic binary file: a 0x1A marker byte followed by
255 copies of byte 9. -/
def binBlock2 : List Nat := 26 :: List.replicate 255 9

/-- Block assignment placing `binBlock1` at block 17 and `binBlock2`
everywhere else (in particular at block 18). -/
def binBlocks : Nat → List Nat := fun b => if b = 17 then binBlock1 else binBlock2

set_option maxRecDepth 10000 in
/-- C3: an entry is BINARY exactly when its munged filename ends with one of
`.bin`, `.i2l`, `.obj`, `.sav`, `.sys` (and the match is case-insensitive:
uppercasing the raw name does not change the classification); extraction of a
BINARY entry concatenates the full contents of all its blocks, so a 0x1A
byte never truncates — concretely, `PROG    .BIN` is BINARY, and a 2-block
binary file whose second block starts with 0x1A still yields all 512 bytes. -/
theorem binary_extract_spec :
    (∀ name : List Nat, isBinaryName name = true ↔
      ∃ suf ∈ bin_extensions, suf.isSuffixOf (munge_filename name) = true) ∧
    (∀ name : List Nat, isBinaryName (name.map toUpperByte) = isBinaryName name) ∧
    (∀ (blocks : Nat → List Nat) (b n : Nat),
      extract_blocks blocks false b n =
        ((List.range n).map fun k => blocks (b + k)).flatten) ∧
    isBinaryName [80, 82, 79, 71, 32, 32, 32, 32, 46, 66, 73, 78] = true ∧
    extract_blocks binBlocks false 17 2 = binBlock1 ++ binBlock2 ∧
    (binBlock1 ++ binBlock2).length = 512 ∧
    binBlock2.getD 0 0 = 26 := by
  refine ⟨?_, ?_, ?_, by decide, by decide, by decide, rfl⟩
  · intro name
    simp [isBinaryName, List.any_eq_true]
  · intro name
    unfold isBinaryName
    rw [munge_filename_toUpperByte]
  · intro blocks b n
    induction n generalizing b with
    | zero => rfl
    | succ n ih =>
      have hstep : extract_blocks blocks false b (n + 1) =
          blocks b ++ extract_blocks blocks false (b + 1) n := rfl
      have hf : ((fun k => blocks (b + k)) ∘ Nat.succ) =
          fun k => blocks (b + 1 + k) := by
        funext k
        show blocks (b + Nat.succ k) = blocks (b + 1 + k)
        rw [show b + Nat.succ k = b + 1 + k from by omega]
      rw [hstep, ih (b + 1), List.range_succ_eq_map]
      simp only [List.map_cons, List.flatten_cons, List.map_map, hf, Nat.add_zero]

/-- Directory bytes 512-767 (physical block 4, logical block 11) of the
two-entry synthetic image: slots 0 and 1 both have status 1; slot 0 starts
at block 20, slot 1 at block 17. -/
def twoSlotMetaBlock : Nat → Nat
  | 16 => 1 | 17 => 1
  | 64 => 20 | 66 => 17
  | _ => 0

/-- Synthetic image whose directory has two active entries with descending
start blocks (20, then 17), to show the decoder performs no sorting. -/
def twoSlotImage : Image where
  len := 143360
  byte := fun off =>
    match off / 256 with
    | 4 => twoSlotMetaBlock (off % 256)
    | _ => 0

/-- C4: the directory decoder walks slot indices 0..47 over the 1024-byte
buffer from logical blocks 9-12; its output is exactly the slots with
nonzero status byte (at buffer offset `528 + i`), each contributing one
entry, in ascending slot order.  In particular a slot with status 0 never
appears, and no sorting by start block happens: on `twoSlotImage` the
decoded start blocks come out `[20, 17]`, in slot order, not sorted. -/
theorem decode_dir_slot_order :
    (∀ img : Image,
      decode_dir (raw_dir img) =
        ((List.range files_per_dir).filter fun i =>
            slotStatus (raw_dir img) i != 0).map (slotEntry (raw_dir img))) ∧
    (decode_dir (raw_dir twoSlotImage)).map DirEntry.first_block = [20, 17] := by
  constructor
  · intro img
    unfold decode_dir
    generalize raw_dir img = raw
    suffices h : ∀ l : List Nat,
        (l.filterMap fun i =>
          if slotStatus raw i = 0 then none else some (slotEntry raw i)) =
        (l.filter fun i => slotStatus raw i != 0).map (slotEntry raw) from h _
    intro l
    induction l with
    | nil => rfl
    | cons x xs ih =>
      rw [List.filterMap_cons, List.filter_cons]
      by_cases hx : slotStatus raw x = 0
      · simp [hx, ih]
      · simp [hx, ih]
  · set_option maxRecDepth 10000 in exact rfl

end Apexdir

namespace Apexdir

/-- `getD` after `set` at a different index is unchanged. -/
theorem getD_set_ne_opt (l : List (Option Nat)) (j k : Nat) (v : Option Nat)
    (h : j ≠ k) : (l.set j v).getD k none = l.getD k none := by
  simp [List.getElem?_set_ne h]

/-- `getD` after `set` at the same in-range index returns the new value. -/
theorem getD_set_self_opt (l : List (Option Nat)) (j : Nat) (v : Option Nat)
    (h : j < l.length) : (l.set j v).getD j none = v := by
  simp [List.getElem?_set_self h]

/-- Invariant of the `invert_table` loop: starting from an accumulator whose
slots for the remaining distinct, in-range elements are all unfilled, the
loop succeeds, fills slot `xs[k]` with index `i + k`, and leaves every other
slot untouched. -/
theorem invertAux_spec (xs : List Nat) :
    ∀ (i : Nat) (inv : List (Option Nat)),
    (∀ x ∈ xs, x < inv.length) →
    (∀ x ∈ xs, inv.getD x none = none) →
    xs.Nodup →
    ∃ inv2, invertAux xs i inv = .ok inv2 ∧ inv2.length = inv.length ∧
      (∀ k, k < xs.length → inv2.getD (xs.getD k 0) none = some (i + k)) ∧
      (∀ p, p ∉ xs → inv2.getD p none = inv.getD p none) := by
  induction xs with
  | nil =>
    intro i inv _ _ _
    exact ⟨inv, rfl, rfl, by simp, fun p _ => rfl⟩
  | cons x xs ih =>
    intro i inv hrange hnone hnodup
    have hx : x < inv.length := hrange x (List.mem_cons_self x xs)
    have hxnone : inv.getD x none = none := hnone x (List.mem_cons_self x xs)
    have hxs : x ∉ xs := (List.nodup_cons.mp hnodup).1
    obtain ⟨inv2, heq, hlen, hfill, hrest⟩ :=
      ih (i + 1) (inv.set x (some i))
        (fun y hy => by
          rw [List.length_set]
          exact hrange y (List.mem_cons_of_mem _ hy))
        (fun y hy => by
          rw [getD_set_ne_opt _ _ _ _ (fun hxy => hxs (by rw [hxy]; exact hy))]
          exact hnone y (List.mem_cons_of_mem _ hy))
        (List.nodup_cons.mp hnodup).2
    refine ⟨inv2, ?_, by rw [hlen, List.length_set], ?_, ?_⟩
    · rw [invertAux, if_neg (by omega), hxnone]
      simpa using heq
    · intro k hk
      match k with
      | 0 =>
        rw [List.getD_cons_zero, hrest x hxs, getD_set_self_opt _ _ _ hx,
          Nat.add_zero]
      | k + 1 =>
        rw [List.getD_cons_succ, show i + (k + 1) = i + 1 + k from by omega]
        exact hfill k (by simpa using hk)
    · intro p hp
      have hpx : p ≠ x := fun hpe => hp (hpe ▸ List.mem_cons_self x xs)
      have hpxs : p ∉ xs := fun hm => hp (List.mem_cons_of_mem _ hm)
      rw [hrest p hpxs, getD_set_ne_opt _ _ _ _ (fun hpe => hpx hpe.symm)]

/-- A valid permutation table: pairwise distinct entries, each in
`[0, length)`. -/
def isPermTable (t : List Nat) : Prop :=
  t.Nodup ∧ ∀ x ∈ t, x < t.length

/-- On a valid permutation table `invert_table` succeeds, and the result maps
`t[k]` back to `k`. -/
theorem invert_table_ok (t : List Nat) (h : isPermTable t) :
    ∃ v, invert_table t = .ok v ∧ v.length = t.length ∧
      ∀ k, k < t.length → v.getD (t.getD k 0) 0 = k := by
  obtain ⟨hnodup, hrange⟩ := h
  obtain ⟨inv2, heq, hlen, hfill, _⟩ :=
    invertAux_spec t 0 (List.replicate t.length none)
      (fun x hx => by simpa using hrange x hx)
      (fun x hx => by simp [List.getElem?_replicate_of_lt (hrange x hx)])
      hnodup
  refine ⟨inv2.map (fun o => o.getD 0), ?_, by simp [hlen], ?_⟩
  · rw [invert_table, heq]
    rfl
  · intro k hk
    have hmem : t.getD k 0 ∈ t := by
      rw [List.getD_eq_getElem?_getD, List.getElem?_eq_getElem hk]
      exact List.getElem_mem hk
    have hjlt : t.getD k 0 < inv2.length := by
      rw [hlen, List.length_replicate]
      exact hrange _ hmem
    have h2 := hfill k hk
    rw [List.getD_eq_getElem?_getD, List.getElem?_eq_getElem hjlt,
      Option.getD_some] at h2
    rw [List.getD_eq_getElem?_getD, List.getElem?_map,
      List.getElem?_eq_getElem hjlt, h2]
    simp

/-- C7: for every valid permutation table `t` (pairwise distinct entries in
`[0, t.length)`), `invert_table` succeeds with some `v` and
`compose_table t v` is the identity table `[0, 1, ..., t.length - 1]`. -/
theorem perm_compose_invert_id (t : List Nat) (h : isPermTable t) :
    ∃ v, invert_table t = .ok v ∧
      compose_table t v = .ok (List.range t.length) := by
  obtain ⟨v, hv, hlen, hfill⟩ := invert_table_ok t h
  refine ⟨v, hv, ?_⟩
  rw [compose_table, if_neg (by omega)]
  congr 1
  apply List.ext_getElem
  · simp
  · intro k h1 h2
    have hk : k < t.length := by simpa using h1
    have ht : t.getD k 0 = t[k] := by
      rw [List.getD_eq_getElem?_getD, List.getElem?_eq_getElem hk]
      rfl
    have := hfill k hk
    rw [ht] at this
    simp only [List.getElem_map, List.getElem_range]
    exact this

/-- Witness for C7 at the concrete permutation table `[1, 0]`. -/
theorem perm_compose_invert_id_witness :
    isPermTable [1, 0] ∧
    ∃ v, invert_table [1, 0] = .ok v ∧
      compose_table [1, 0] v = .ok (List.range ([1, 0] : List Nat).length) :=
  ⟨⟨by decide, by decide⟩, perm_compose_invert_id [1, 0] ⟨by decide, by decide⟩⟩

end Apexdir
